import Mathlib

set_option maxRecDepth 8000

/-!
Shallow embedding of `process_monitor.py` (class `ProcessMonitor`), a
tkinter/psutil real-time process monitor, together with proofs of the
specification's claims about it.

Conventions of the embedding:
* Python floats are modelled as `Rat` (all arithmetic in the program is
  exact on the inputs the spec talks about).
* Byte counts and pids are `Nat`.
* psutil calls that may raise are modelled by `Except` values supplied by
  the environment; the `try/except` structure of the Python code becomes
  pattern matching on those values.
* Python's `list.sort` (Timsort) is a stable comparator sort; it is
  modelled by a structurally recursive stable insertion sort, which
  computes the same (unique) stable reordering.
* The tkinter widgets are modelled by the data they hold: labels are
  `String`s, the `Treeview` is a list of rows paired with their insertion
  keys (item identifiers, in insertion order), dialogs are an inductive.
-/

namespace ProcessMonitor

/-! ### A stable comparator sort, modelling Python `list.sort` -/

/-- Insert `a` before the first element `b` with `le a b`; used to model
Python's stable sort. -/
def sInsert (le : α → α → Bool) (a : α) : List α → List α
  | [] => [a]
  | b :: l => if le a b then a :: b :: l else b :: sInsert le a l

/-- Stable sort by the comparator `le`: the model of Python's `list.sort`
with `le a b` meaning "`a` may come before `b`". -/
def stableSort (le : α → α → Bool) : List α → List α
  | [] => []
  | a :: l => sInsert le a (stableSort le l)

theorem sInsert_perm (le : α → α → Bool) (a : α) (l : List α) :
    List.Perm (sInsert le a l) (a :: l) := by
  induction l with
  | nil => simp [sInsert]
  | cons b l ih =>
      by_cases h : le a b
      · simp [sInsert, h]
      · simp only [sInsert, h, if_false]
        exact (ih.cons b).trans (List.Perm.swap a b l)

theorem stableSort_perm (le : α → α → Bool) (l : List α) :
    List.Perm (stableSort le l) l := by
  induction l with
  | nil => simp [stableSort]
  | cons a l ih => exact (sInsert_perm le a (stableSort le l)).trans (ih.cons a)

theorem mem_sInsert (le : α → α → Bool) (a x : α) (l : List α) :
    x ∈ sInsert le a l ↔ x = a ∨ x ∈ l := by
  constructor
  · intro h
    have hx := (sInsert_perm le a l).subset h
    simpa using hx
  · intro h
    apply (sInsert_perm le a l).symm.subset
    simpa using h

theorem sInsert_pairwise (le : α → α → Bool)
    (trans : ∀ a b c, le a b → le b c → le a c)
    (total : ∀ a b, le a b || le b a) (a : α) (l : List α)
    (hl : l.Pairwise (fun x y => le x y = true)) :
    (sInsert le a l).Pairwise (fun x y => le x y = true) := by
  induction l with
  | nil => simp [sInsert]
  | cons b l ih =>
      rcases List.pairwise_cons.mp hl with ⟨hb, hl'⟩
      by_cases h : le a b
      · simp only [sInsert, h, if_true]
        refine List.pairwise_cons.mpr ⟨?_, hl⟩
        intro y hy
        rcases List.mem_cons.mp hy with rfl | hy'
        · exact h
        · exact trans a b y h (hb y hy')
      · simp only [sInsert, h, if_false]
        refine List.pairwise_cons.mpr ⟨?_, ih hl'⟩
        intro y hy
        rcases (mem_sInsert le a y l).mp hy with rfl | hy'
        · rcases Bool.or_eq_true_iff.mp (total y b) with hyb | hby
          · exact absurd hyb h
          · exact hby
        · exact hb y hy'

theorem stableSort_pairwise (le : α → α → Bool)
    (trans : ∀ a b c, le a b → le b c → le a c)
    (total : ∀ a b, le a b || le b a) (l : List α) :
    (stableSort le l).Pairwise (fun x y => le x y = true) := by
  induction l with
  | nil => simp [stableSort]
  | cons a l ih => exact sInsert_pairwise le trans total a (stableSort le l) ih

/-! ### Data model of one sampler cycle (`update_loop`, lines 93-119) -/

/-- Raw per-process information: the dict yielded by
`psutil.process_iter(['pid','name','cpu_percent','memory_info','status'])`.
`cpu_percent` here is the raw (per-core-unnormalized) reading;
`memory_rss` is `memory_info.rss` in bytes. -/
structure PInfo where
  pid : Nat
  name : String
  cpu_percent : Rat
  memory_rss : Nat
  status : String
deriving DecidableEq, Repr

/-- The two exception types caught per process in the enumeration loop:
`psutil.NoSuchProcess` and `psutil.AccessDenied`. -/
inductive ReadErr
  | noSuchProcess
  | accessDenied
deriving DecidableEq, Repr

/-- Python `str.lower()` as used on process names (line 104):
`String.toLower` maps `Char.toLower` over the characters; written here
directly over the character list so that it evaluates in the kernel. -/
def lowerStr (s : String) : String := String.mk (s.data.map Char.toLower)

/-- The idle-name sentinel list of line 104:
`['system idle process', 'idle']`. -/
def idleNames : List String := ["system idle process", "idle"]

/-- Body of the `for proc in psutil.process_iter(...)` loop (lines 101-108):
a failed read (`NoSuchProcess`/`AccessDenied`) is skipped with `continue`;
an idle-named process is dropped; otherwise `cpu_percent` is divided by the
core count and the record appended. -/
def collectProcesses (num_cores : Nat) : List (Except ReadErr PInfo) → List PInfo
  | [] => []
  | Except.error _ :: rest => collectProcesses num_cores rest
  | Except.ok p :: rest =>
      if lowerStr p.name ∈ idleNames then
        collectProcesses num_cores rest
      else
        { p with cpu_percent := p.cpu_percent / (num_cores : Rat) } ::
          collectProcesses num_cores rest

/-- Comparison used by `processes.sort(key=lambda x: x['cpu_percent'],
reverse=True)`: Python's stable sort with `reverse=True` keeps `a` before
`b` exactly when `b`'s key does not exceed `a`'s. -/
def cpuDescLe (a b : PInfo) : Bool := decide (b.cpu_percent ≤ a.cpu_percent)

/-- The `psutil.virtual_memory()` sample: `used`/`total` in bytes and the
`percent` field. -/
structure Mem where
  used : Nat
  total : Nat
  percent : Rat
deriving DecidableEq, Repr

/-- One tuple `(cpu_percent, memory, processes)` as put on `update_queue`
(line 113). -/
structure Update where
  cpu_percent : Rat
  memory : Mem
  processes : List PInfo
deriving DecidableEq, Repr

/-- One successful sampler cycle (lines 97-113): collect the per-process
records (skipping failures and idle entries, normalizing CPU), sort
descending by normalized `cpu_percent`, truncate to the top 50, and build
the queued tuple. -/
def buildUpdate (num_cores : Nat) (cpu : Rat) (memory : Mem)
    (raws : List (Except ReadErr PInfo)) : Update :=
  let processes := collectProcesses num_cores raws
  let processes := stableSort cpuDescLe processes
  let processes := processes.take 50
  { cpu_percent := cpu, memory := memory, processes := processes }

theorem cpuDescLe_trans (a b c : PInfo) :
    cpuDescLe a b → cpuDescLe b c → cpuDescLe a c := by
  simp only [cpuDescLe, decide_eq_true_eq]
  exact fun h1 h2 => le_trans h2 h1

theorem cpuDescLe_total (a b : PInfo) : cpuDescLe a b || cpuDescLe b a := by
  simp only [cpuDescLe, Bool.or_eq_true, decide_eq_true_eq]
  exact le_total b.cpu_percent a.cpu_percent

theorem collectProcesses_name (num_cores : Nat)
    (raws : List (Except ReadErr PInfo)) :
    ∀ p ∈ collectProcesses num_cores raws, lowerStr p.name ∉ idleNames := by
  induction raws with
  | nil => simp [collectProcesses]
  | cons r rest ih =>
      intro q hq
      cases r with
      | error e =>
          exact ih q hq
      | ok p =>
          simp only [collectProcesses] at hq
          by_cases h : lowerStr p.name ∈ idleNames
          · rw [if_pos h] at hq
            exact ih q hq
          · rw [if_neg h] at hq
            rcases List.mem_cons.mp hq with rfl | hq'
            · simpa using h
            · exact ih q hq'

/-- C1: every Snapshot produced by one sampler cycle satisfies the three
construction invariants: at most 50 records, adjacent pairs descending by
normalized `cpu_percent` (truncation applied after sorting), and no record
whose lowercased name is `"system idle process"` or `"idle"`. -/
theorem c1_snapshot_invariants (num_cores : Nat) (cpu : Rat) (memory : Mem)
    (raws : List (Except ReadErr PInfo)) :
    (buildUpdate num_cores cpu memory raws).processes.length ≤ 50 ∧
    List.Chain' (fun a b => b.cpu_percent ≤ a.cpu_percent)
      (buildUpdate num_cores cpu memory raws).processes ∧
    (∀ p ∈ (buildUpdate num_cores cpu memory raws).processes,
      lowerStr p.name ≠ "system idle process" ∧ lowerStr p.name ≠ "idle") := by
  refine ⟨?_, ?_, ?_⟩
  · simp only [buildUpdate]
    exact List.length_take_le 50 _
  · have hsorted : (stableSort cpuDescLe (collectProcesses num_cores raws)).Pairwise
        (fun a b => cpuDescLe a b = true) :=
      stableSort_pairwise cpuDescLe cpuDescLe_trans cpuDescLe_total _
    have htake : ((buildUpdate num_cores cpu memory raws).processes).Pairwise
        (fun a b => cpuDescLe a b = true) := by
      simpa [buildUpdate] using hsorted.sublist (List.take_sublist 50 _)
    have hdesc : ((buildUpdate num_cores cpu memory raws).processes).Pairwise
        (fun a b => b.cpu_percent ≤ a.cpu_percent) := by
      refine htake.imp ?_
      intro a b h
      simpa [cpuDescLe] using h
    exact hdesc.chain'
  · intro p hp
    have hmem : p ∈ stableSort cpuDescLe (collectProcesses num_cores raws) := by
      simpa [buildUpdate] using List.take_subset 50 _ hp
    have hmem' : p ∈ collectProcesses num_cores raws :=
      (stableSort_perm cpuDescLe _).subset hmem
    have hname := collectProcesses_name num_cores raws p hmem'
    simp only [idleNames, List.mem_cons, List.not_mem_nil, or_false,
      List.mem_singleton] at hname
    push_neg at hname
    exact hname

/-- Concrete instantiation of `c1_snapshot_invariants`: a four-entry
enumeration (one failed read, one idle entry) on a two-core machine. -/
theorem c1_snapshot_invariants_witness :
    (buildUpdate 2 10 ⟨0, 0, 0⟩
        [Except.ok ⟨1, "a", 4, 0, "running"⟩,
         Except.error ReadErr.noSuchProcess,
         Except.ok ⟨2, "Idle", 9, 0, "running"⟩,
         Except.ok ⟨3, "b", 8, 0, "sleeping"⟩]).processes.length ≤ 50 ∧
    lowerStr (⟨3, "b", 4, 0, "sleeping"⟩ : PInfo).name ≠ "system idle process" := by
  have h := c1_snapshot_invariants 2 10 ⟨0, 0, 0⟩
    [Except.ok ⟨1, "a", 4, 0, "running"⟩,
     Except.error ReadErr.noSuchProcess,
     Except.ok ⟨2, "Idle", 9, 0, "running"⟩,
     Except.ok ⟨3, "b", 8, 0, "sleeping"⟩]
  exact ⟨h.1, (h.2.2 ⟨3, "b", 4, 0, "sleeping"⟩ (by with_unfolding_all decide)).1⟩

theorem collectProcesses_mem (num_cores : Nat)
    (raws : List (Except ReadErr PInfo)) (q : PInfo)
    (hq : q ∈ collectProcesses num_cores raws) :
    ∃ p, Except.ok p ∈ raws ∧
      q = { p with cpu_percent := p.cpu_percent / (num_cores : Rat) } := by
  induction raws with
  | nil => simp [collectProcesses] at hq
  | cons r rest ih =>
      cases r with
      | error e =>
          rcases ih hq with ⟨p, hp, hpq⟩
          exact ⟨p, List.mem_cons_of_mem _ hp, hpq⟩
      | ok p =>
          simp only [collectProcesses] at hq
          by_cases h : lowerStr p.name ∈ idleNames
          · rw [if_pos h] at hq
            rcases ih hq with ⟨p', hp', hpq'⟩
            exact ⟨p', List.mem_cons_of_mem _ hp', hpq'⟩
          · rw [if_neg h] at hq
            rcases List.mem_cons.mp hq with rfl | hq'
            · exact ⟨p, List.mem_cons_self _ _, rfl⟩
            · rcases ih hq' with ⟨p', hp', hpq'⟩
              exact ⟨p', List.mem_cons_of_mem _ hp', hpq'⟩

/-- C4: every record stored in a produced snapshot carries the CPU value of
its raw reading divided by the cached core count. -/
theorem c4_cpu_normalization (num_cores : Nat) (cpu : Rat) (memory : Mem)
    (raws : List (Except ReadErr PInfo)) (q : PInfo)
    (hq : q ∈ (buildUpdate num_cores cpu memory raws).processes) :
    ∃ p, Except.ok p ∈ raws ∧
      q.cpu_percent = p.cpu_percent / (num_cores : Rat) := by
  have hmem : q ∈ stableSort cpuDescLe (collectProcesses num_cores raws) := by
    simpa [buildUpdate] using List.take_subset 50 _ hq
  have hmem' : q ∈ collectProcesses num_cores raws :=
    (stableSort_perm cpuDescLe _).subset hmem
  rcases collectProcesses_mem num_cores raws q hmem' with ⟨p, hp, rfl⟩
  exact ⟨p, hp, rfl⟩

/-- Concrete instantiation of `c4_cpu_normalization`: a raw reading of 400
on a 4-core machine is stored normalized, i.e. as 100.0. -/
theorem c4_cpu_normalization_witness :
    ∃ p, (Except.ok p : Except ReadErr PInfo) ∈
        [Except.ok (⟨1234, "worker", 400, 64, "running"⟩ : PInfo)] ∧
      ((⟨1234, "worker", 100, 64, "running"⟩ : PInfo).cpu_percent =
        p.cpu_percent / ((4 : Nat) : Rat)) :=
  c4_cpu_normalization 4 0 ⟨0, 0, 0⟩
    [Except.ok ⟨1234, "worker", 400, 64, "running"⟩]
    ⟨1234, "worker", 100, 64, "running"⟩
    (by with_unfolding_all decide)

/-- C6: a failed per-process read is skipped silently and the cycle
continues: dropping such an entry leaves the rest of the enumeration
untouched, the collected records are exactly the successfully-read,
non-idle ones (normalized), and whenever at most 50 survive, the produced
snapshot holds precisely those records. -/
theorem c6_skip_failed_reads :
    (∀ (num_cores : Nat) (e : ReadErr) (rest : List (Except ReadErr PInfo)),
      collectProcesses num_cores (Except.error e :: rest) =
        collectProcesses num_cores rest) ∧
    (∀ (num_cores : Nat) (raws : List (Except ReadErr PInfo)),
      collectProcesses num_cores raws = raws.filterMap (fun r =>
        match r with
        | Except.error _ => none
        | Except.ok p =>
            if lowerStr p.name ∈ idleNames then none
            else some { p with cpu_percent := p.cpu_percent / (num_cores : Rat) })) ∧
    (∀ (num_cores : Nat) (cpu : Rat) (memory : Mem)
        (raws : List (Except ReadErr PInfo)),
      (collectProcesses num_cores raws).length ≤ 50 →
      List.Perm (buildUpdate num_cores cpu memory raws).processes
        (collectProcesses num_cores raws)) := by
  refine ⟨fun _ _ _ => rfl, ?_, ?_⟩
  · intro num_cores raws
    induction raws with
    | nil => rfl
    | cons r rest ih =>
        cases r with
        | error e => simpa [collectProcesses] using ih
        | ok p =>
            by_cases h : lowerStr p.name ∈ idleNames
            · simpa [collectProcesses, h] using ih
            · simpa [collectProcesses, h] using ih
  · intro num_cores cpu memory raws hlen
    have hperm := stableSort_perm cpuDescLe (collectProcesses num_cores raws)
    have hlen' : (stableSort cpuDescLe (collectProcesses num_cores raws)).length ≤ 50 :=
      hperm.length_eq ▸ hlen
    have htake : (buildUpdate num_cores cpu memory raws).processes =
        stableSort cpuDescLe (collectProcesses num_cores raws) := by
      simp [buildUpdate, List.take_of_length_le hlen']
    rw [htake]
    exact hperm

/-- Concrete instantiation of `c6_skip_failed_reads`: with one vanished
process in the middle of the enumeration, the snapshot holds exactly the
other records. -/
theorem c6_skip_failed_reads_witness :
    List.Perm
      (buildUpdate 1 0 ⟨0, 0, 0⟩
        [Except.ok ⟨1, "a", 3, 0, "running"⟩,
         Except.error ReadErr.accessDenied,
         Except.ok ⟨2, "b", 7, 0, "running"⟩]).processes
      (collectProcesses 1
        [Except.ok ⟨1, "a", 3, 0, "running"⟩,
         Except.error ReadErr.accessDenied,
         Except.ok ⟨2, "b", 7, 0, "running"⟩]) :=
  c6_skip_failed_reads.2.2 1 0 ⟨0, 0, 0⟩
    [Except.ok ⟨1, "a", 3, 0, "running"⟩,
     Except.error ReadErr.accessDenied,
     Except.ok ⟨2, "b", 7, 0, "running"⟩]
    (by with_unfolding_all decide)

/-! ### The Presenter (`check_updates`, lines 121-154) -/

/-- Floor of a rational, written with `Int.fdiv` so that it evaluates in
the kernel (`den` is positive, so this is the mathematical floor). -/
def ratFloor (q : Rat) : Int := Int.fdiv q.num (q.den : Int)

/-- Rounding to the nearest integer with ties to even: the rounding CPython
applies to the scaled value when formatting with `:.1f`. -/
def roundHalfEven (x : Rat) : Int :=
  let n := ratFloor x
  let r := x - (n : Rat)
  if r < 1 / 2 then n
  else if 1 / 2 < r then n + 1
  else if n % 2 = 0 then n else n + 1

/-- Python `f-string` formatting with `:.1f` on the nonnegative values this
program displays: one digit after the decimal point, rounding ties to
even. -/
def fmt1 (q : Rat) : String :=
  let n := roundHalfEven (q * 10)
  if n < 0 then
    "-" ++ toString ((-n).toNat / 10) ++ "." ++ toString ((-n).toNat % 10)
  else
    toString (n.toNat / 10) ++ "." ++ toString (n.toNat % 10)

/-- One row of the `Treeview`, as inserted at lines 140-146: the pid is
stringified by the widget, CPU and memory are formatted with `:.1f`, the
memory value first converted to MB by true division. -/
structure Row where
  pid : String
  name : String
  cpu : String
  mem : String
  status : String
deriving DecidableEq, Repr

/-- Text of `cpu_label` (line 128). -/
def cpuLabelText (num_cores : Nat) (cpu : Rat) : String :=
  "CPU: " ++ fmt1 cpu ++ "% (Cores: " ++ toString num_cores ++ ")"

/-- Text of `memory_label` (line 129): percent formatted `:.1f`, used and
total converted to integer MB with Python `//` (natural division). -/
def memoryLabelText (m : Mem) : String :=
  "Memory: " ++ fmt1 m.percent ++ "% (" ++ toString (m.used / (1024 * 1024)) ++
    " MB / " ++ toString (m.total / (1024 * 1024)) ++ " MB)"

/-- Text of `process_count_label` (line 130). -/
def processCountText (ps : List PInfo) : String :=
  "Processes: " ++ toString ps.length

/-- One `tree.insert` call (lines 139-146). -/
def renderRow (p : PInfo) : Row :=
  { pid := toString p.pid
    name := p.name
    cpu := fmt1 p.cpu_percent
    mem := fmt1 ((p.memory_rss : Rat) / (1024 * 1024))
    status := p.status }

/-- The displayed state owned by the Presenter: the three summary labels
and the table rows. -/
structure Display where
  cpu_label : String
  memory_label : String
  process_count_label : String
  rows : List Row
deriving DecidableEq, Repr

set_option linter.unusedVariables false in
/-- Applying one drained queue entry to the display (lines 126-146): all
three labels are overwritten, the current tree children are deleted, and
the rows of this update are inserted. The previous display contents do not
influence the result. -/
def applyUpdate (num_cores : Nat) (d : Display) (u : Update) : Display :=
  { cpu_label := cpuLabelText num_cores u.cpu_percent
    memory_label := memoryLabelText u.memory
    process_count_label := processCountText u.processes
    rows := u.processes.map renderRow }

/-- The `while not self.update_queue.empty()` drain of `check_updates`
(lines 124-146): every queued update is applied in FIFO order. -/
def drainQueue (num_cores : Nat) (d : Display) (queue : List Update) : Display :=
  queue.foldl (applyUpdate num_cores) d

/-- C2: after one Presenter drain of a queue holding older snapshots and
then a most recent snapshot `s2`, the displayed state (summary labels and
table rows) is exactly the one obtained from `s2` alone: older queued
snapshots do not survive the drain. -/
theorem c2_drain_last_write_wins (num_cores : Nat) (d : Display)
    (pending : List Update) (s2 : Update) :
    drainQueue num_cores d (pending ++ [s2]) = applyUpdate num_cores d s2 := by
  simp only [drainQueue, List.foldl_append, List.foldl_cons, List.foldl_nil]
  rfl

/-- C9: the rendering arithmetic of `check_updates` is exact on the spec's
end-to-end scenario: 8 GB used of 16 GB shows as `7629 MB` of `15258 MB`
at `50.0` percent, and the worker process row renders with CPU `12.3` and
memory `50.0` MB. -/
theorem c9_render_arithmetic :
    memoryLabelText ⟨8000000000, 16000000000, 50⟩ =
      "Memory: 50.0% (7629 MB / 15258 MB)" ∧
    renderRow ⟨1234, "worker", 12.34, 52428800, "running"⟩ =
      ⟨"1234", "worker", "12.3", "50.0", "running"⟩ := by
  constructor
  · with_unfolding_all decide
  · with_unfolding_all decide

/-! ### The terminate command (`terminate_process`, lines 171-189) -/

/-- psutil exceptions that `process.terminate()` may raise, plus the
catch-all `Exception` case with its message (`str(e)`). -/
inductive PsutilErr
  | noSuchProcess
  | accessDenied
  | other (msg : String)
deriving DecidableEq, Repr

/-- Whether an exception value matches the `except psutil.NoSuchProcess`
clause. -/
def isNoSuchProcess : PsutilErr → Bool
  | PsutilErr.noSuchProcess => true
  | _ => false

/-- Whether an exception value matches the `except psutil.AccessDenied`
clause. -/
def isAccessDenied : PsutilErr → Bool
  | PsutilErr.accessDenied => true
  | _ => false

/-- Python `str(e)` for the exception reaching the catch-all handler. -/
def errText : PsutilErr → String
  | PsutilErr.noSuchProcess => "process no longer exists"
  | PsutilErr.accessDenied => "access is denied"
  | PsutilErr.other msg => msg

/-- A tkinter messagebox call. -/
inductive Dialog
  | warning (title msg : String)
  | info (title msg : String)
  | error (title msg : String)
  | askyesno (title msg : String)
deriving DecidableEq, Repr

/-- The `try/except` chain of lines 180-189, with the handlers tried in
the order they are written: `NoSuchProcess` first, then `AccessDenied`,
then the catch-all whose message embeds the underlying reason. -/
def handleTerminate (pid : Nat) (res : Except PsutilErr Unit) : Dialog :=
  match res with
  | Except.ok _ =>
      Dialog.info "Success" ("Process " ++ toString pid ++ " terminated.")
  | Except.error e =>
      if isNoSuchProcess e then
        Dialog.error "Error" "Process no longer exists."
      else if isAccessDenied e then
        Dialog.error "Error" "Access denied. Run as Administrator."
      else
        Dialog.error "Error" ("Failed to terminate process: " ++ errText e)

/-- C5: the terminate command's outcome is always surfaced and the three
failure kinds are distinguished: a vanished pid gets the dedicated
"already gone" message (which is never the generic one), a privilege
failure gets the "access denied" message, any other OS failure gets a
message embedding the underlying reason, and every failure produces an
error dialog (none is dropped, none escapes the handlers). -/
theorem c5_terminate_failures_distinguished (pid : Nat) :
    handleTerminate pid (Except.error PsutilErr.noSuchProcess) =
      Dialog.error "Error" "Process no longer exists." ∧
    handleTerminate pid (Except.error PsutilErr.accessDenied) =
      Dialog.error "Error" "Access denied. Run as Administrator." ∧
    (∀ m, handleTerminate pid (Except.error (PsutilErr.other m)) =
      Dialog.error "Error" ("Failed to terminate process: " ++ m)) ∧
    (∀ m, ("Process no longer exists." : String) ≠
      "Failed to terminate process: " ++ m) ∧
    (∀ e, ∃ msg, handleTerminate pid (Except.error e) = Dialog.error "Error" msg) := by
  refine ⟨rfl, rfl, fun m => rfl, ?_, ?_⟩
  · intro m h
    have hlen := congrArg String.length h
    have h1 : ("Process no longer exists." : String).length = 25 := rfl
    have h2 : ("Failed to terminate process: " : String).length = 29 := rfl
    rw [h1, String.length_append, h2] at hlen
    omega
  · intro e
    cases e with
    | noSuchProcess => exact ⟨_, rfl⟩
    | accessDenied => exact ⟨_, rfl⟩
    | other m => exact ⟨_, rfl⟩

/-- Concrete instantiation of `c5_terminate_failures_distinguished` at
pid 4242 with a vanished process. -/
theorem c5_terminate_failures_distinguished_witness :
    handleTerminate 4242 (Except.error PsutilErr.noSuchProcess) =
      Dialog.error "Error" "Process no longer exists." :=
  (c5_terminate_failures_distinguished 4242).1

/-- Effects of one invocation of the terminate command: the (unchanged)
display, the pid a terminate signal was issued to (if any), and the
dialogs shown, in order. -/
structure TermEffect where
  display : Display
  signaled : Option Nat
  dialogs : List Dialog
deriving DecidableEq, Repr

/-- The `askyesno` confirmation dialog of line 179. -/
def confirmDialog (pid : Nat) : Dialog :=
  Dialog.askyesno "Confirm Termination"
    ("Are you sure you want to terminate PID " ++ toString pid ++ "?")

/-- The whole `terminate_process` handler (lines 171-189). `selection` is
the pid of the first selected row (`None` when the selection is empty),
`confirmed` the operator's answer to the confirmation dialog, `res` the
outcome of `psutil.Process(pid).terminate()`. The displayed state `d` is
never touched by this handler. -/
def terminate_process (d : Display) (selection : Option Nat)
    (confirmed : Bool) (res : Except PsutilErr Unit) : TermEffect :=
  match selection with
  | none =>
      { display := d
        signaled := none
        dialogs := [Dialog.warning "No Selection" "Please select a process to terminate."] }
  | some pid =>
      if confirmed then
        { display := d
          signaled := some pid
          dialogs := [confirmDialog pid, handleTerminate pid res] }
      else
        { display := d
          signaled := none
          dialogs := [confirmDialog pid] }

/-- C10: the terminate command issues no OS signal and changes no
displayed state when no row is selected (a warning is shown and the
handler returns) or when the operator declines the confirmation; a signal
is sent exactly when a selection exists and confirmation is
affirmative. -/
theorem c10_terminate_gating :
    (∀ d confirmed res, terminate_process d none confirmed res =
      { display := d, signaled := none,
        dialogs := [Dialog.warning "No Selection" "Please select a process to terminate."] }) ∧
    (∀ d pid res, terminate_process d (some pid) false res =
      { display := d, signaled := none, dialogs := [confirmDialog pid] }) ∧
    (∀ d selection confirmed res,
      (terminate_process d selection confirmed res).display = d) ∧
    (∀ d pid res,
      (terminate_process d (some pid) true res).signaled = some pid) ∧
    (∀ d selection confirmed res pid,
      (terminate_process d selection confirmed res).signaled = some pid →
        selection = some pid ∧ confirmed = true) := by
  refine ⟨fun d confirmed res => rfl, fun d pid res => rfl, ?_, fun d pid res => rfl, ?_⟩
  · intro d selection confirmed res
    cases selection with
    | none => rfl
    | some pid => cases confirmed <;> rfl
  · intro d selection confirmed res pid h
    cases selection with
    | none => simp [terminate_process] at h
    | some pid' =>
        cases confirmed with
        | false => simp [terminate_process] at h
        | true =>
            simp only [terminate_process, if_true] at h
            exact ⟨by rw [Option.some.injEq] at h; rw [h], rfl⟩

/-- Concrete instantiation of `c10_terminate_gating`: a confirmed
terminate of pid 7 signals exactly pid 7. -/
theorem c10_terminate_gating_witness :
    (some 7 : Option Nat) = some 7 ∧ (true = true) :=
  c10_terminate_gating.2.2.2.2 ⟨"", "", "", []⟩ (some 7) true (Except.ok ()) 7 rfl

/-! ### The sampler loop (`update_loop`, lines 93-119) and the refresh
rate control (lines 44-46) -/

/-- What one cycle body attempt yields: either a completed update (then
the loop publishes it and sleeps the configured interval) or an exception
anywhere in the cycle (then the `except` arm reports and sleeps 1s). -/
inductive CycleOutcome
  | ok (u : Update)
  | failed (msg : String)
deriving DecidableEq, Repr

/-- Observable events of the sampler loop. -/
inductive LoopEvent
  | published (u : Update)
  | slept (seconds : Rat)
  | reported (msg : String)
deriving DecidableEq, Repr

/-- The `while self.running` loop (lines 95-119). Each entry of the
environment list supplies, for one top-of-loop iteration, the value of
`self.running` read there, the cycle body's outcome, and the value
`self.refresh_rate.get()` returns during that iteration (the interval is
read fresh each cycle). The loop exits exactly when it reads a false
flag; a failed cycle prints the error and sleeps the fixed 1s fallback,
then the loop continues. -/
def update_loop : List (Bool × CycleOutcome × Rat) → List LoopEvent
  | [] => []
  | (false, _, _) :: _ => []
  | (true, CycleOutcome.ok u, interval) :: rest =>
      LoopEvent.published u :: LoopEvent.slept interval :: update_loop rest
  | (true, CycleOutcome.failed msg, _) :: rest =>
      LoopEvent.reported msg :: LoopEvent.slept 1 :: update_loop rest

/-- C7: the sampler loop never terminates because of an error: a failed
cycle reports the error, sleeps the fixed 1s fallback and continues with
the next iteration; a false shutdown flag at the top of an iteration ends
the loop; and as long as the flag stays true the loop runs every cycle it
is given (two events per cycle), errors included. -/
theorem c7_loop_survives_errors :
    (∀ (msg : String) (interval : Rat) (rest : List (Bool × CycleOutcome × Rat)),
      update_loop ((true, CycleOutcome.failed msg, interval) :: rest) =
        LoopEvent.reported msg :: LoopEvent.slept 1 :: update_loop rest) ∧
    (∀ (c : CycleOutcome) (interval : Rat) (rest : List (Bool × CycleOutcome × Rat)),
      update_loop ((false, c, interval) :: rest) = []) ∧
    (∀ cycles : List (CycleOutcome × Rat),
      (update_loop (cycles.map (fun p => (true, p.1, p.2)))).length =
        2 * cycles.length) := by
  refine ⟨fun msg interval rest => rfl, fun c interval rest => rfl, ?_⟩
  intro cycles
  induction cycles with
  | nil => rfl
  | cons p rest ih =>
      cases p with
      | mk c interval =>
          cases c with
          | ok u => simp [update_loop, ih]; ring
          | failed msg => simp [update_loop, ih]; ring

/-- One operator write to the `refresh_rate` `DoubleVar` through the
`ttk.Spinbox` of line 45. The widget is configured with `from_=0.1`,
`to=5.0`, `increment=0.1`: the arrow buttons step by the increment and
clamp at the bounds, but the entry field is bound to the variable through
`textvariable` with no validation, so a typed value is written through
unclamped. -/
inductive SpinInput
  | up
  | down
  | typed (v : Rat)
deriving DecidableEq, Repr

/-- Effect of one spinbox interaction on the `refresh_rate` variable:
arrow presses clamp at the configured bounds, typed entry overwrites the
variable with whatever was typed. -/
def spinInputStep (v : Rat) : SpinInput → Rat
  | SpinInput.up => min (v + 1 / 10) 5
  | SpinInput.down => max (v - 1 / 10) (1 / 10)
  | SpinInput.typed w => w

/-- The `refresh_rate` `DoubleVar` after a sequence of operator
interactions with the spinbox, starting from its initial value 0.5
(line 44). -/
def refreshRateAfter (acts : List SpinInput) : Rat :=
  acts.foldl spinInputStep (1 / 2)

theorem spinInputStep_bounds (v : Rat) (a : SpinInput)
    (ha : a = SpinInput.up ∨ a = SpinInput.down)
    (h1 : 1 / 10 ≤ v) (h2 : v ≤ 5) :
    1 / 10 ≤ spinInputStep v a ∧ spinInputStep v a ≤ 5 := by
  rcases ha with rfl | rfl
  · constructor
    · exact le_min (by linarith) (by norm_num)
    · exact min_le_right _ _
  · constructor
    · exact le_max_right _ _
    · exact max_le (by linarith) (by norm_num)

theorem refreshRate_foldl_bounds (acts : List SpinInput)
    (harrow : ∀ a ∈ acts, a = SpinInput.up ∨ a = SpinInput.down) :
    ∀ v : Rat, 1 / 10 ≤ v → v ≤ 5 →
      1 / 10 ≤ acts.foldl spinInputStep v ∧ acts.foldl spinInputStep v ≤ 5 := by
  induction acts with
  | nil => exact fun v h1 h2 => ⟨h1, h2⟩
  | cons a rest ih =>
      intro v h1 h2
      have ha := harrow a (List.mem_cons_self a rest)
      have hs := spinInputStep_bounds v a ha h1 h2
      exact ih (fun b hb => harrow b (List.mem_cons_of_mem a hb)) (spinInputStep v a) hs.1 hs.2

/-- C8 counterexample: the interval is not always within [0.1, 5.0].
Typing `9` into the spinbox entry writes 9 to `refresh_rate` (the
`textvariable` binding has no validation), 9 exceeds the upper bound 5,
and the sampler's next cycle sleeps those 9 seconds unclamped. -/
theorem c8_interval_clamp_counterexample :
    refreshRateAfter [SpinInput.typed 9] = 9 ∧
    ¬ refreshRateAfter [SpinInput.typed 9] ≤ 5 ∧
    update_loop [(true, CycleOutcome.ok ⟨0, ⟨0, 0, 0⟩, []⟩,
        refreshRateAfter [SpinInput.typed 9])] =
      [LoopEvent.published ⟨0, ⟨0, 0, 0⟩, []⟩, LoopEvent.slept 9] := by
  refine ⟨rfl, ?_, rfl⟩
  with_unfolding_all decide

/-- C8 amended: every interval value reachable from the initial 0.5
through the spinbox arrow buttons alone stays within the configured range
[0.1, 5.0] (typed entry is written through unvalidated and can leave the
range), and the loop reads the interval fresh at the end of every cycle:
each cycle sleeps the value read during that cycle, so a changed value
takes effect on the very next cycle. -/
theorem c8_arrow_clamped_and_fresh :
    (∀ acts : List SpinInput,
      (∀ a ∈ acts, a = SpinInput.up ∨ a = SpinInput.down) →
      1 / 10 ≤ refreshRateAfter acts ∧ refreshRateAfter acts ≤ 5) ∧
    (∀ (u1 u2 : Update) (iv1 iv2 : Rat) (rest : List (Bool × CycleOutcome × Rat)),
      update_loop ((true, CycleOutcome.ok u1, iv1) ::
          (true, CycleOutcome.ok u2, iv2) :: rest) =
        LoopEvent.published u1 :: LoopEvent.slept iv1 ::
          LoopEvent.published u2 :: LoopEvent.slept iv2 :: update_loop rest) := by
  constructor
  · intro acts harrow
    exact refreshRate_foldl_bounds acts harrow (1 / 2) (by norm_num) (by norm_num)
  · intro u1 u2 iv1 iv2 rest
    rfl

/-- Concrete instantiation of `c8_arrow_clamped_and_fresh`: one up press
followed by one down press keeps the interval inside [0.1, 5.0]. -/
theorem c8_arrow_clamped_and_fresh_witness :
    1 / 10 ≤ refreshRateAfter [SpinInput.up, SpinInput.down] ∧
    refreshRateAfter [SpinInput.up, SpinInput.down] ≤ 5 :=
  c8_arrow_clamped_and_fresh.1 [SpinInput.up, SpinInput.down] (by decide)

/-! ### The sort command (`sort_column`, lines 156-169) -/

/-- The five Treeview columns (line 64). -/
inductive Col
  | pid
  | name
  | cpu
  | memory
  | status
deriving DecidableEq, Repr

/-- The string `self.tree.set(k, col)` returns for a row. -/
def colVal (r : Row) : Col → String
  | Col.pid => r.pid
  | Col.name => r.name
  | Col.cpu => r.cpu
  | Col.memory => r.mem
  | Col.status => r.status

/-- The test `col in ("CPU%", "Memory")` of line 160. -/
def colIsNumeric (col : Col) : Bool :=
  decide (col = Col.cpu ∨ col = Col.memory)

/-- Value of a decimal digit run (most significant first). -/
def digitsVal (cs : List Char) : Nat :=
  cs.foldl (fun n c => 10 * n + (c.toNat - 48)) 0

/-- Split a character list at the first `'.'`. -/
def splitDot : List Char → List Char × Option (List Char)
  | [] => ([], none)
  | c :: rest =>
      if c = '.' then ([], some rest)
      else
        let (i, f) := splitDot rest
        (c :: i, f)

/-- Python `float(s)` on the nonnegative decimal strings this program
puts in its numeric columns (digits with at most one decimal point). -/
def pyFloat (s : String) : Rat :=
  match splitDot s.data with
  | (i, none) => (digitsVal i : Rat)
  | (i, some f) => (digitsVal i : Rat) + (digitsVal f : Rat) / ((10 : Rat) ^ f.length)

/-- The numeric sort key of line 161: `float(x[0]) if x[0] else 0`. -/
def numKey (s : String) : Rat :=
  if s = "" then 0 else pyFloat s

/-- Ascending numeric comparison on the `(value, item)` pairs the sort
builds; the item id is ignored, as Python's `key=` sort compares keys
only (ties keep list order by stability). -/
def numLe (a b : String × Nat) : Bool :=
  decide (numKey a.1 ≤ numKey b.1)

/-- Ascending comparison of the `(value, item)` tuples in the text branch
of line 163: Python tuple comparison is lexicographic, so equal values
fall back to the item id (ids are assigned in insertion order, modelled
by `Nat`). -/
def lexLe (a b : String × Nat) : Bool :=
  if a.1 = b.1 then decide (a.2 ≤ b.2) else decide (a.1 < b.1)

/-- The comparison `items.sort(...)` uses once the column kind and the
`reverse` flag are fixed: Python's stable sort with `reverse=True` keeps
`a` before `b` exactly when `b` may come before `a` ascending. -/
def itemLe (numeric reverse : Bool) (a b : String × Nat) : Bool :=
  if numeric then (if reverse then numLe b a else numLe a b)
  else (if reverse then lexLe b a else lexLe a b)

/-- The pair `(self.tree.set(k, col), k)` built at line 158 from one row
of the tree, where the insertion key stands for the item id. -/
def rowKey (col : Col) (x : Nat × Row) : String × Nat :=
  (colVal x.2 col, x.1)

/-- Row-level comparison: `itemLe` on the extracted `(value, item)`
pairs. -/
def rowLe (col : Col) (reverse : Bool) (x y : Nat × Row) : Bool :=
  itemLe (colIsNumeric col) reverse (rowKey col x) (rowKey col y)

/-- The whole `sort_column` handler (lines 156-169): build the
`(value, key)` pairs, sort them by the column's comparison in the given
direction, and move the rows into that order. Sorting the rows paired
with their keys by `rowLe` performs both steps at once. The handler then
rebinds the column header to `sort_column col (not reverse)`, so the next
invocation on the same column runs with the toggled flag. -/
def sort_column (col : Col) (reverse : Bool) (rows : List (Nat × Row)) :
    List (Nat × Row) :=
  stableSort (rowLe col reverse) rows

/-- Being sorted for a column and direction, as the adjacent-pairs
ordering the displayed rows satisfy after a sort. -/
def sortedBy (col : Col) (reverse : Bool) (l : List (Nat × Row)) : Prop :=
  l.Pairwise (fun x y => rowLe col reverse x y = true)

theorem numLe_trans (a b c : String × Nat)
    (h1 : numLe a b = true) (h2 : numLe b c = true) : numLe a c = true := by
  simp only [numLe, decide_eq_true_eq] at *
  exact le_trans h1 h2

theorem numLe_total (a b : String × Nat) : numLe a b || numLe b a := by
  simp only [numLe, Bool.or_eq_true, decide_eq_true_eq]
  exact le_total _ _

theorem lexLe_trans (a b c : String × Nat)
    (hab : lexLe a b = true) (hbc : lexLe b c = true) : lexLe a c = true := by
  unfold lexLe at *
  by_cases h1 : a.1 = b.1
  · by_cases h2 : b.1 = c.1
    · rw [if_pos h1] at hab
      rw [if_pos h2] at hbc
      rw [if_pos (h1.trans h2)]
      simp only [decide_eq_true_eq] at *
      omega
    · rw [if_neg h2] at hbc
      simp only [decide_eq_true_eq] at hbc
      have hne : a.1 ≠ c.1 := fun h => h2 (h1.symm.trans h)
      rw [if_neg hne]
      simp only [decide_eq_true_eq]
      exact h1 ▸ hbc
  · by_cases h2 : b.1 = c.1
    · rw [if_neg h1] at hab
      simp only [decide_eq_true_eq] at hab
      have hlt : a.1 < c.1 := h2 ▸ hab
      have hne : a.1 ≠ c.1 := fun h => lt_irrefl c.1 (h ▸ hlt)
      rw [if_neg hne]
      simp only [decide_eq_true_eq]
      exact hlt
    · rw [if_neg h1] at hab
      rw [if_neg h2] at hbc
      simp only [decide_eq_true_eq] at hab hbc
      have hlt : a.1 < c.1 := lt_trans hab hbc
      have hne : a.1 ≠ c.1 := fun h => lt_irrefl c.1 (h ▸ hlt)
      rw [if_neg hne]
      simp only [decide_eq_true_eq]
      exact hlt

theorem lexLe_total (a b : String × Nat) : lexLe a b || lexLe b a := by
  unfold lexLe
  by_cases h : a.1 = b.1
  · rw [if_pos h, if_pos h.symm]
    simp only [Bool.or_eq_true, decide_eq_true_eq]
    omega
  · rw [if_neg h, if_neg (Ne.symm h)]
    simp only [Bool.or_eq_true, decide_eq_true_eq]
    exact lt_or_gt_of_ne h

theorem itemLe_trans (numeric reverse : Bool) (a b c : String × Nat)
    (h1 : itemLe numeric reverse a b = true)
    (h2 : itemLe numeric reverse b c = true) :
    itemLe numeric reverse a c = true := by
  cases numeric <;> cases reverse <;>
    simp only [itemLe, if_true, if_false, Bool.false_eq_true, ite_true, ite_false] at *
  · exact lexLe_trans a b c h1 h2
  · exact lexLe_trans c b a h2 h1
  · exact numLe_trans a b c h1 h2
  · exact numLe_trans c b a h2 h1

theorem itemLe_total (numeric reverse : Bool) (a b : String × Nat) :
    itemLe numeric reverse a b || itemLe numeric reverse b a := by
  cases numeric <;> cases reverse <;>
    simp only [itemLe, if_true, if_false, ite_true, ite_false]
  · exact lexLe_total a b
  · exact Bool.or_comm _ _ ▸ lexLe_total b a
  · exact numLe_total a b
  · exact Bool.or_comm _ _ ▸ numLe_total b a

theorem rowLe_trans (col : Col) (reverse : Bool) (x y z : Nat × Row)
    (h1 : rowLe col reverse x y) (h2 : rowLe col reverse y z) :
    rowLe col reverse x z :=
  itemLe_trans _ _ _ _ _ h1 h2

theorem rowLe_total (col : Col) (reverse : Bool) (x y : Nat × Row) :
    rowLe col reverse x y || rowLe col reverse y x :=
  itemLe_total _ _ _ _

/-- C3: for every column and starting row set, the sort command produces
a permutation of the input rows ordered by that column's comparison
(numeric for CPU% and Memory, lexicographic for the text columns) in the
requested direction, and invoking the command again on the same column —
which runs with the toggled direction flag — again yields a permutation
of the same rows, now ordered the opposite way. -/
theorem c3_sort_column (col : Col) (reverse : Bool) (rows : List (Nat × Row)) :
    List.Perm (sort_column col reverse rows) rows ∧
    sortedBy col reverse (sort_column col reverse rows) ∧
    List.Perm (sort_column col (!reverse) (sort_column col reverse rows)) rows ∧
    sortedBy col (!reverse) (sort_column col (!reverse) (sort_column col reverse rows)) := by
  refine ⟨stableSort_perm _ _, ?_, ?_, ?_⟩
  · exact stableSort_pairwise _ (rowLe_trans col reverse) (rowLe_total col reverse) _
  · exact (stableSort_perm _ _).trans (stableSort_perm _ _)
  · exact stableSort_pairwise _ (rowLe_trans col (!reverse)) (rowLe_total col (!reverse)) _

end ProcessMonitor
